import Mathlib

/-!
Verification development for the tailortalk-backend request-processing and
availability/scheduling engine.

Times are modelled as natural numbers of minutes (a `datetime` instant is the
minute count from a fixed epoch; for a single day's business window the values
are minutes since midnight, e.g. 9:00 = 540).  Fallible Python code returning
`None` or raising becomes `Option`/`Except`.  The external Google Calendar
store is modelled as an explicit argument: the list of events it returns for a
query window (or an `Except.error` for a raised exception).
-/

/-- Business configuration, from `app/config/settings.py` (the given defaults:
start hour 9, end hour 17, business days `[0,1,2,3,4]`, buffer 15 minutes,
max suggestions 10). -/
structure Config where
  businessStartHour : Nat
  businessEndHour : Nat
  businessDays : List Nat
  bookingBufferMinutes : Nat
  maxSuggestions : Nat
deriving Repr, DecidableEq

/-- Default values of `settings.py` lines 31-42. -/
def defaultConfig : Config :=
  { businessStartHour := 9
    businessEndHour := 17
    businessDays := [0, 1, 2, 3, 4]
    bookingBufferMinutes := 15
    maxSuggestions := 10 }

/-- Default of `settings.AVAILABILITY_SEARCH_DAYS` (`settings.py` line 43). -/
def AVAILABILITY_SEARCH_DAYS : Nat := 30

/-- Calendar event as returned by the calendar store's `events().list` call:
an optional `status` field (Python's `event.get('status')` yields `None` when
absent) and the parsed start/end instants in minutes.  The source parses the
instants with `_parse_datetime` and drops events whose instants fail to parse;
events here carry already-parsed instants. -/
structure Event where
  status : Option String
  start : Nat
  stop : Nat
deriving Repr, DecidableEq

/-- Conflict scan of `GoogleCalendarService.check_availability` (lines 74-80):
walk the returned events, return `false` at the first event whose status is
not `'cancelled'`, `true` if none is found. -/
def availLoop : List Event → Bool
  | [] => true
  | e :: rest => if e.status ≠ some "cancelled" then false else availLoop rest

/-- `GoogleCalendarService.check_availability` (lines 50-87).  The argument is
the outcome of the store's `events().list` call for the window: `Except.error`
models a raised `HttpError`/`Exception`, which the `except` clauses convert to
`False`. -/
def check_availability (fetch : Except Unit (List Event)) : Bool :=
  match fetch with
  | Except.error _ => false
  | Except.ok events => availLoop events

/-- Busy-interval collection of `get_available_slots` (lines 187-193): keep
`(start, end)` for each event whose status is not `'cancelled'`. -/
def busyTimes : List Event → List (Nat × Nat)
  | [] => []
  | e :: rest =>
    if e.status ≠ some "cancelled" then (e.start, e.stop) :: busyTimes rest
    else busyTimes rest

/-- Sorting step `busy_times.sort(key=lambda x: x[0])` (line 196): a stable
sort ascending by interval start. -/
def sortBusy (l : List (Nat × Nat)) : List (Nat × Nat) :=
  List.insertionSort (fun a b => a.1 ≤ b.1) l

/-- Inner `while` of `get_available_slots` (lines 208-210): emit slot starts
and advance the cursor by `d` while `cursor + duration + buffer <= busy_start`;
returns the emitted starts and the final cursor.  The `0 < d` conjunct makes
the function total: for `d = 0` the Python loop does not terminate, so no
returned sequence exists there. -/
def emitBefore (d buf bs : Nat) (cur : Nat) : List Nat × Nat :=
  if _h : 0 < d ∧ cur + d + buf ≤ bs then
    let p := emitBefore d buf bs (cur + d)
    (cur :: p.1, p.2)
  else ([], cur)
termination_by bs - cur
decreasing_by omega

/-- Trailing `while` of `get_available_slots` (lines 216-218): emit slot
starts while `cursor + duration <= end_of_day`.  As in `emitBefore`, `0 < d`
is required for termination. -/
def emitAfter (d endB : Nat) (cur : Nat) : List Nat :=
  if _h : 0 < d ∧ cur + d ≤ endB then cur :: emitAfter d endB (cur + d) else []
termination_by endB - cur
decreasing_by omega

/-- The `for busy_start, busy_end in busy_times` walk of `get_available_slots`
(lines 204-218).  The Python guard `busy_start - current_time >=
slot_duration + buffer_duration` compares signed timedeltas, which over
integers is exactly `cur + d + buf ≤ bs`.  After each busy interval the cursor
advances to `max(current_time, busy_end + buffer_duration)`. -/
def slotWalk (d buf endB : Nat) (cur : Nat) : List (Nat × Nat) → List Nat
  | [] => emitAfter d endB cur
  | (bs, be) :: rest =>
    if cur + d + buf ≤ bs then
      let p := emitBefore d buf bs cur
      p.1 ++ slotWalk d buf endB (max p.2 (be + buf)) rest
    else
      slotWalk d buf endB (max cur (be + buf)) rest

/-- `GoogleCalendarService.get_available_slots` (lines 150-225).  `weekday` is
`date.weekday()`; `events` is what the store returns for the business window
(a raised exception in the `try` body returns `[]`, not modelled by a claim
about the walk itself).  Slot starts are returned as minutes since midnight;
the source formats each as a `'%I:%M %p'` string.  The result is truncated to
`settings.MAX_SUGGESTIONS`. -/
def get_available_slots (cfg : Config) (weekday : Nat) (events : List Event)
    (durationMinutes : Nat) : List Nat :=
  let startOfDay := cfg.businessStartHour * 60
  let endOfDay := cfg.businessEndHour * 60
  if weekday ∈ cfg.businessDays then
    let busy := sortBusy (busyTimes events)
    (slotWalk durationMinutes cfg.bookingBufferMinutes endOfDay startOfDay busy).take
      cfg.maxSuggestions
  else []

/-- Day scan of `CalendarTools.find_next_available_slot` (`tools.py` lines
230-241): `for i in range(7)` over consecutive days, returning the first day
whose slot list is non-empty together with its first slot. -/
def findNextLoop (slotsOn : Nat → List Nat) : Nat → Nat → Option (Nat × Nat)
  | _, 0 => none
  | day, fuel + 1 =>
    match slotsOn day with
    | [] => findNextLoop slotsOn (day + 1) fuel
    | s :: _ => some (day, s)

/-- `CalendarTools.find_next_available_slot` (`tools.py` lines 217-245): scans
the 7 consecutive days starting at `preferredDay` (the literal `range(7)` of
line 230) and returns `(day, first slot)` of the first day with an available
slot, `none` when all 7 days are exhausted.  `weekdayOf` gives each day's
weekday and `eventsOn` the store's events for that day's business window; the
source renders the outcome as a message string, elided here. -/
def find_next_available_slot (cfg : Config) (weekdayOf : Nat → Nat)
    (eventsOn : Nat → List Event) (preferredDay : Nat) (durationMinutes : Nat) :
    Option (Nat × Nat) :=
  findNextLoop
    (fun day => get_available_slots cfg (weekdayOf day) (eventsOn day) durationMinutes)
    preferredDay 7

/-- Calendar-store call record, used to state which collaborator calls a code
path performs. -/
inductive StoreCall
  | listEvents (timeMin timeMax : Nat)
  | createEvent (title : String) (timeMin timeMax : Nat)
deriving Repr, DecidableEq

/-- Created-event payload returned by the store's `events().insert` call:
the fields `tools.py` reads (`status`, `htmlLink`), optional as in the API
response dictionary. -/
structure CreatedEvent where
  status : Option String
  htmlLink : Option String
deriving Repr, DecidableEq

/-- The external calendar store: what `events().list` returns for a window and
what `events().insert` returns for a creation request, with `Except.error`
modelling a raised exception. -/
structure Store where
  listEvents : Nat → Nat → Except Unit (List Event)
  createEvent : String → Nat → Nat → Except Unit CreatedEvent

/-- Service-level availability check as invoked by the tools layer, paired
with the store call it performs. -/
def service_check_availability (store : Store) (s e : Nat) :
    Bool × List StoreCall :=
  (check_availability (store.listEvents s e), [StoreCall.listEvents s e])

/-- Outcome of `CalendarTools.book_appointment` (`tools.py` lines 41-77); the
source renders each as a message string, elided here.  `bookedOk` carries
`event.get('status', 'confirmed')` and `event.get('htmlLink', '')`. -/
inductive BookingReply
  | clarifyNeedDateAndTime
  | cannotParseDateTime
  | slotNotAvailable
  | bookedOk (status : String) (link : String)
  | bookingFailed
deriving Repr, DecidableEq

/-- `CalendarTools.book_appointment` (`tools.py` lines 41-77): re-derive the
duration (`duration_minutes if duration_minutes is not None else 60`), check
availability for `[start, start+duration)` and stop with a not-available
message when it fails; otherwise call the store's create and report its
outcome (`except` clause gives `bookingFailed`).  The second component lists
the store calls performed. -/
def tools_book_appointment (store : Store) (title : String) (startTime : Nat)
    (durationMinutes : Option Nat) (_description : String) :
    BookingReply × List StoreCall :=
  let duration := durationMinutes.getD 60
  let endTime := startTime + duration
  let avail := service_check_availability store startTime endTime
  if avail.1 = false then
    (BookingReply.slotNotAvailable, avail.2)
  else
    match store.createEvent title startTime endTime with
    | Except.ok ev =>
      (BookingReply.bookedOk (ev.status.getD "confirmed") (ev.htmlLink.getD ""),
        avail.2 ++ [StoreCall.createEvent title startTime endTime])
    | Except.error _ =>
      (BookingReply.bookingFailed,
        avail.2 ++ [StoreCall.createEvent title startTime endTime])

/-- Outcome of `CalendarTools.check_availability` (`tools.py` lines 16-39) and
its agent wrapper `_handle_availability_check`. -/
inductive AvailReply
  | clarifyNeedDateAndTime
  | cannotParseDateTime
  | available
  | notAvailable
deriving Repr, DecidableEq

/-- `CalendarTools.check_availability` (`tools.py` lines 16-39): check the
window `[start, start+duration)` and report the boolean as a message. -/
def tools_check_availability (store : Store) (startTime : Nat)
    (durationMinutes : Nat) : AvailReply × List StoreCall :=
  let endTime := startTime + durationMinutes
  let c := service_check_availability store startTime endTime
  (if c.1 then AvailReply.available else AvailReply.notAvailable, c.2)

/-- Entity bag of the agent: the fixed field set the code reads, each field
`none` when absent or `null`. -/
structure Entities where
  title : Option String
  date : Option String
  time : Option String
  duration : Option Nat
  description : Option String
deriving Repr, DecidableEq

/-- Python falsiness of an optional string (`if not date`): `None` and the
empty string are falsy. -/
def pyFalsyStr : Option String → Bool
  | none => true
  | some s => s.isEmpty

/-- Python whitespace characters recognised by `str.strip`, `\s`, and
`str.split()` for the inputs at hand (ASCII whitespace). -/
def isPySpace (c : Char) : Bool :=
  c = ' ' ∨ c = '\t' ∨ c = '\n' ∨ c = '\r' ∨ c = '\x0b' ∨ c = '\x0c'

/-- Word character of the regex `\b` boundary (`[a-zA-Z0-9_]` for the ASCII
inputs at hand). -/
def isWordChar (c : Char) : Bool :=
  c.isAlphanum || c = '_'

/-- Python `str.lower()` over a character list (ASCII). -/
def pyLower (s : List Char) : List Char := s.map Char.toLower

/-- Python `str.strip()`: drop whitespace on both ends. -/
def stripChars (s : List Char) : List Char :=
  ((s.dropWhile isPySpace).reverse.dropWhile isPySpace).reverse

/-- Prefix test on character lists (used for substring search). -/
def isPrefixCS : List Char → List Char → Bool
  | [], _ => true
  | _ :: _, [] => false
  | a :: xs, b :: ys => a = b && isPrefixCS xs ys

/-- Python substring containment `needle in hay`. -/
def containsSub (needle : List Char) : List Char → Bool
  | [] => needle.isEmpty
  | c :: t => isPrefixCS needle (c :: t) || containsSub needle t

/-- Python `str.replace(ab, '')` for a two-character pattern: remove the
non-overlapping occurrences of `a` then `b`, left to right. -/
def removePat (a b : Char) : List Char → List Char
  | [] => []
  | [c] => [c]
  | c1 :: c2 :: t =>
    if c1 = a ∧ c2 = b then removePat a b t
    else c1 :: removePat a b (c2 :: t)

/-- Python `str.split(':')`: split at every colon, keeping empty pieces. -/
def splitColon : List Char → List (List Char)
  | [] => [[]]
  | c :: t =>
    if c = ':' then [] :: splitColon t
    else
      match splitColon t with
      | [] => [[c]]
      | p :: ps => (c :: p) :: ps

/-- Decimal digit run to its value (digits only). -/
def digitsVal (l : List Char) : Nat :=
  l.foldl (fun a c => a * 10 + (c.toNat - 48)) 0

/-- Conversion of a digit string to a number, `none` when empty or not all
digits. -/
def digitsToNat (l : List Char) : Option Nat :=
  if l.isEmpty then none
  else if l.all Char.isDigit then some (digitsVal l) else none

/-- Python `int(str)`: optional surrounding whitespace, optional sign, one or
more digits; raises (here `none`) otherwise. -/
def pyInt (s : List Char) : Option Int :=
  match stripChars s with
  | '-' :: ds => (digitsToNat ds).map (fun n => -(n : Int))
  | '+' :: ds => (digitsToNat ds).map (fun n => (n : Int))
  | ds => (digitsToNat ds).map (fun n => (n : Int))

/-- Validation performed by `datetime.min.time().replace(hour=..., minute=...)`
(`calendar_agent.py` lines 547, 552, 556): hour and minute must lie in range,
otherwise `ValueError` is raised and the enclosing `except` returns `None`.
Out-of-range values are rejected, never clamped. -/
def mkTime (h m : Int) : Option (Nat × Nat) :=
  if 0 ≤ h ∧ h ≤ 23 ∧ 0 ≤ m ∧ m ≤ 59 then some (h.toNat, m.toNat) else none

/-- Meridiem adjustment of `_parse_time_component` (lines 542-545):
`if is_pm and hour != 12: hour += 12; elif not is_pm and hour == 12: hour = 0`. -/
def meridConvert (isPm : Bool) (h : Int) : Int :=
  if isPm ∧ h ≠ 12 then h + 12
  else if ¬isPm ∧ h = 12 then 0
  else h

/-- Hour/minute split of `hour, minute = map(int, time_str.split(':'))`: the
unpacking raises unless the split has exactly two parts, and each part must
convert with `int`; any raise becomes `none`. -/
def splitHourMinute (l : List Char) : Option (Int × Int) :=
  match splitColon l with
  | [hs, ms] =>
    match pyInt hs, pyInt ms with
    | some h, some m => some (h, m)
    | _, _ => none
  | _ => none

/-- `CalendarAgent._parse_time_component` (`calendar_agent.py` lines 522-560).
A falsy fragment (`None` or empty) fails at once; the fragment is lowercased
and stripped; when it contains `pm` or `am` the meridiem path strips those
substrings and converts to 24-hour; otherwise a colon-delimited value is read
literally and a bare integer is an hour with zero minutes.  Every success goes
through the `time().replace` range validation (`mkTime`). -/
def parse_time_component (timeStr : Option String) : Option (Nat × Nat) :=
  match timeStr with
  | none => none
  | some s0 =>
    if s0.isEmpty then none
    else
      let l := stripChars (pyLower s0.toList)
      let hasPm := containsSub ['p', 'm'] l
      let hasAm := containsSub ['a', 'm'] l
      if hasPm || hasAm then
        let isPm := hasPm
        let l2 := stripChars (removePat 'a' 'm' (removePat 'p' 'm' l))
        if l2.contains ':' then
          match splitHourMinute l2 with
          | some (h, m) => mkTime (meridConvert isPm h) m
          | none => none
        else
          match pyInt l2 with
          | some h => mkTime (meridConvert isPm h) 0
          | none => none
      else if l.contains ':' then
        match splitHourMinute l with
        | some (h, m) => mkTime h m
        | none => none
      else
        match pyInt l with
        | some h => mkTime h 0
        | none => none

/-- `CalendarAgent._parse_datetime` (lines 449-473): parse the date fragment
(`_parse_date_component`, abstracted here as the `parseDate` argument since it
delegates to `strptime` format lists and `dateutil`), then the time fragment;
both must succeed to combine into a datetime, modelled as
(day, hour, minute). -/
def parse_datetime (parseDate : Option String → Option Nat)
    (dateStr timeStr : Option String) : Option (Nat × Nat × Nat) :=
  match parseDate dateStr with
  | none => none
  | some day =>
    match parse_time_component timeStr with
    | none => none
    | some (h, m) => some (day, h, m)

/-- Minute instant of a (day, hour, minute) triple, for handing a combined
datetime to the tools layer. -/
def instantOf (day h m : Nat) : Nat := day * 1440 + h * 60 + m

/-- `CalendarAgent._handle_booking` (lines 314-343): missing or falsy date or
time short-circuits with the clarification message before any parsing or
store access; an unparseable datetime stops before any store access;
otherwise the tools layer books.  `duration` mirrors
`entities.get('duration', 60)` then `duration if duration else 60`. -/
def handle_booking (parseDate : Option String → Option Nat) (store : Store)
    (ents : Entities) : BookingReply × List StoreCall :=
  let title := ents.title.getD "Appointment"
  if pyFalsyStr ents.date || pyFalsyStr ents.time then
    (BookingReply.clarifyNeedDateAndTime, [])
  else
    match parse_datetime parseDate ents.date ents.time with
    | none => (BookingReply.cannotParseDateTime, [])
    | some (day, h, m) =>
      let dur := ents.duration.getD 60
      tools_book_appointment store title (instantOf day h m)
        (some (if dur = 0 then 60 else dur)) (ents.description.getD "")

/-- `CalendarAgent._handle_availability_check` (lines 345-363): the same
short-circuits, then `CalendarTools.check_availability` with the default
60-minute duration. -/
def handle_availability_check (parseDate : Option String → Option Nat)
    (store : Store) (ents : Entities) : AvailReply × List StoreCall :=
  if pyFalsyStr ents.date || pyFalsyStr ents.time then
    (AvailReply.clarifyNeedDateAndTime, [])
  else
    match parse_datetime parseDate ents.date ents.time with
    | none => (AvailReply.cannotParseDateTime, [])
    | some (day, h, m) => tools_check_availability store (instantOf day h m) 60

/-- Boundary test for `\b` at the end of a match whose last character is a
word character: the following text must be empty or start with a non-word
character. -/
def boundaryAfter : List Char → Bool
  | [] => true
  | c :: _ => ¬ isWordChar c

/-- Generic leftmost-match driver for `re.search`: try the position matcher at
each position from the left, tracking whether the previous character is a word
character (for the leading `\b`). -/
def searchPos (f : Bool → List Char → Option α) : Bool → List Char → Option α
  | _, [] => none
  | prevW, c :: rest =>
    match f prevW (c :: rest) with
    | some g => some g
    | none => searchPos f (isWordChar c) rest

/-- Tail of the `\b(\d{1,2})\s*(pm|PM)\b` pattern after the digit group:
greedy `\s*`, the case-insensitive meridiem, and the trailing `\b`.  On
success the digit group is returned. -/
def meridTail (mer : Char) (digits : List Char) (r : List Char) :
    Option (List Char) :=
  match r.dropWhile isPySpace with
  | p :: m :: rest =>
    if p.toLower = mer ∧ m.toLower = 'm' ∧ boundaryAfter rest then some digits
    else none
  | _ => none

/-- Position matcher for `\b(\d{1,2})\s*(pm|PM)\b` (and its `am` twin) with
`re.IGNORECASE`: leading boundary, one or two digits (greedy, backtracking
from two to one), then `meridTail`.  Returns the digit group. -/
def matchMeridAt (mer : Char) (prevW : Bool) : List Char → Option (List Char)
  | [] => none
  | c1 :: rest =>
    if prevW ∨ ¬ c1.isDigit then none
    else
      match rest with
      | c2 :: rest2 =>
        if c2.isDigit then
          match meridTail mer [c1, c2] rest2 with
          | some g => some g
          | none => meridTail mer [c1] rest
        else meridTail mer [c1] rest
      | [] => meridTail mer [c1] []

/-- Tail of `\b(\d{1,2}):(\d{2})\s*(am|pm|AM|PM)?\b` after the minutes: the
optional meridiem group matches when, after greedy `\s*`, a case-insensitive
`am`/`pm` is followed by a boundary; otherwise the group is empty and the
pattern needs a boundary right after the minutes (a following space satisfies
it).  Returns the optional meridiem group. -/
def fullTimeOpt (restAfterMin : List Char) : Option (Option (List Char)) :=
  match restAfterMin.dropWhile isPySpace with
  | p :: m :: r2 =>
    if (p.toLower = 'a' ∨ p.toLower = 'p') ∧ m.toLower = 'm' ∧ boundaryAfter r2 then
      some (some [p, m])
    else if boundaryAfter restAfterMin then some none
    else none
  | _ => if boundaryAfter restAfterMin then some none else none

/-- Colon-and-minutes tail shared by the two `HH:MM` patterns: a colon then
exactly two digits; yields the minute digits and the remaining text. -/
def colonMinutes (r : List Char) : Option (List Char × List Char) :=
  match r with
  | ':' :: m1 :: m2 :: rest =>
    if m1.isDigit ∧ m2.isDigit then some ([m1, m2], rest) else none
  | _ => none

/-- Position matcher for `\b(\d{1,2}):(\d{2})\s*(am|pm|AM|PM)?\b`: returns
(hour digits, minute digits, optional meridiem group). -/
def matchFullTimeAt (prevW : Bool) :
    List Char → Option (List Char × List Char × Option (List Char))
  | [] => none
  | c1 :: rest =>
    if prevW ∨ ¬ c1.isDigit then none
    else
      let try1 : Option (List Char × List Char × Option (List Char)) :=
        match colonMinutes rest with
        | some (mins, r) => (fullTimeOpt r).map (fun mer => ([c1], mins, mer))
        | none => none
      match rest with
      | c2 :: rest2 =>
        if c2.isDigit then
          match colonMinutes rest2 with
          | some (mins, r) =>
            match (fullTimeOpt r).map (fun mer => ([c1, c2], mins, mer)) with
            | some g => some g
            | none => try1
          | none => try1
        else try1
      | [] => try1

/-- Position matcher for the bare `\b(\d{1,2}):(\d{2})\b` pattern: returns
(hour digits, minute digits). -/
def matchHM24At (prevW : Bool) : List Char → Option (List Char × List Char)
  | [] => none
  | c1 :: rest =>
    if prevW ∨ ¬ c1.isDigit then none
    else
      let tail1 : Option (List Char × List Char) :=
        match colonMinutes rest with
        | some (mins, r) => if boundaryAfter r then some ([c1], mins) else none
        | none => none
      match rest with
      | c2 :: rest2 =>
        if c2.isDigit then
          match colonMinutes rest2 with
          | some (mins, r) =>
            if boundaryAfter r then some ([c1, c2], mins) else tail1
          | none => tail1
        else tail1
      | [] => tail1

/-- Case-insensitive literal prefix match against a lowercase keyword,
returning the remaining text. -/
def dropPrefixCI : List Char → List Char → Option (List Char)
  | [], l => some l
  | _ :: _, [] => none
  | k :: ks, c :: cs => if c.toLower = k then dropPrefixCI ks cs else none

/-- Position matcher for a `\b(keyword)\b` pattern (keyword given lowercase,
matched case-insensitively). -/
def matchKeywordAt (kw : List Char) (prevW : Bool) (l : List Char) :
    Option Unit :=
  if prevW then none
  else
    match dropPrefixCI kw l with
    | some r => if boundaryAfter r then some () else none
    | none => none

/-- Position matcher for an alternation `\b(w1|w2|...)\b` of lowercase words,
tried in the given order; returns the matched span of the original text. -/
def matchAltKeywordAt (kws : List (List Char)) (prevW : Bool) (l : List Char) :
    Option (List Char) :=
  if prevW then none
  else
    match kws with
    | [] => none
    | kw :: rest =>
      match dropPrefixCI kw l with
      | some r =>
        if boundaryAfter r then some (l.take kw.length)
        else matchAltKeywordAt rest prevW l
      | none => matchAltKeywordAt rest prevW l

/-- Exactly `n` digits taken from the front, with the rest. -/
def takeDigitsN : Nat → List Char → Option (List Char × List Char)
  | 0, l => some ([], l)
  | _ + 1, [] => none
  | n + 1, c :: t =>
    if c.isDigit then (takeDigitsN n t).map (fun p => (c :: p.1, p.2))
    else none

/-- Date separator class `[slash or dash]`. -/
def isSep (c : Char) : Bool := c = '/' ∨ c = '-'

/-- Year part `\d{2,4}\b` of the numeric date pattern, greedy from four digits
down to two. -/
def yearDigits (r : List Char) : Option (List Char) :=
  (match takeDigitsN 4 r with
   | some (ds, rest) => if boundaryAfter rest then some ds else none
   | none => none)
  <|>
  (match takeDigitsN 3 r with
   | some (ds, rest) => if boundaryAfter rest then some ds else none
   | none => none)
  <|>
  (match takeDigitsN 2 r with
   | some (ds, rest) => if boundaryAfter rest then some ds else none
   | none => none)

/-- Second separator and year of `\b\d{1,2}[slash or dash]\d{1,2}[slash or dash]\d{2,4}\b`;
`pre` is the text matched so far. -/
def numDateThird (pre : List Char) (r : List Char) : Option (List Char) :=
  match r with
  | s :: r1 =>
    if isSep s then
      match yearDigits r1 with
      | some ds => some (pre ++ s :: ds)
      | none => none
    else none
  | [] => none

/-- First separator and middle group of the numeric date pattern, with the
greedy two-to-one backtracking on `\d{1,2}`. -/
def numDateSecond (pre : List Char) (r : List Char) : Option (List Char) :=
  match r with
  | s :: r1 =>
    if isSep s then
      (match takeDigitsN 2 r1 with
       | some (d2, r2) => numDateThird (pre ++ s :: d2) r2
       | none => none)
      <|>
      (match takeDigitsN 1 r1 with
       | some (d2, r2) => numDateThird (pre ++ s :: d2) r2
       | none => none)
    else none
  | [] => none

/-- Position matcher for `\b\d{1,2}[slash or dash]\d{1,2}[slash or dash]\d{2,4}\b`, returning the
matched text. -/
def matchNumDateAt (prevW : Bool) (l : List Char) : Option (List Char) :=
  if prevW then none
  else
    (match takeDigitsN 2 l with
     | some (d1, r) => numDateSecond d1 r
     | none => none)
    <|>
    (match takeDigitsN 1 l with
     | some (d1, r) => numDateSecond d1 r
     | none => none)

/-- Weekday alternation of the fifth date pattern, in the source's order. -/
def weekdayNames : List (List Char) :=
  [['m','o','n','d','a','y'], ['t','u','e','s','d','a','y'],
   ['w','e','d','n','e','s','d','a','y'], ['t','h','u','r','s','d','a','y'],
   ['f','r','i','d','a','y'], ['s','a','t','u','r','d','a','y'],
   ['s','u','n','d','a','y']]

/-- Unit alternation of `\b(next|this)\s+(week|month|<weekday>)\b`, in the
source's order. -/
def nextThisUnits : List (List Char) :=
  ['w','e','e','k'] :: ['m','o','n','t','h'] :: weekdayNames

/-- Position matcher for `\b(next|this)\s+(week|month|<weekday>)\b`: the
leading word, at least one whitespace, then a unit word with a trailing
boundary; returns the matched span of the original text. -/
def matchNextThisAt (prevW : Bool) (l : List Char) : Option (List Char) :=
  if prevW then none
  else
    match
      (match dropPrefixCI ['n','e','x','t'] l with
       | some r => some (4, r)
       | none =>
         match dropPrefixCI ['t','h','i','s'] l with
         | some r => some (4, r)
         | none => none) with
    | none => none
    | some (wlen, r1) =>
      let sp := r1.takeWhile isPySpace
      if sp.isEmpty then none
      else
        let r2 := r1.dropWhile isPySpace
        match matchAltKeywordAt nextThisUnits false r2 with
        | some u => some (l.take (wlen + sp.length + u.length))
        | none => none

/-- Date extraction of `_simple_entity_extraction` (lines 214-240): the six
date patterns tried in order, each searched leftmost; the keyword patterns
yield their fixed `date_type` string, the others the matched text
(`match.group().strip()`, a no-op for these matches). -/
def extractDate (msg : List Char) : Option (List Char) :=
  if (searchPos (matchKeywordAt ['t','o','d','a','y']) false msg).isSome then
    some ['t','o','d','a','y']
  else if (searchPos (matchKeywordAt ['t','o','m','o','r','r','o','w']) false msg).isSome then
    some ['t','o','m','o','r','r','o','w']
  else if (searchPos (matchKeywordAt ['y','e','s','t','e','r','d','a','y']) false msg).isSome then
    some ['y','e','s','t','e','r','d','a','y']
  else
    match searchPos matchNumDateAt false msg with
    | some t => some t
    | none =>
      match searchPos (matchAltKeywordAt weekdayNames) false msg with
      | some t => some t
      | none => searchPos matchNextThisAt false msg

/-- Two-digit-minimum decimal rendering, Python's `'%02d' % n` for
non-negative `n`. -/
def fmt02 (n : Nat) : List Char :=
  let ds := Nat.toDigits 10 n
  if ds.length < 2 then '0' :: ds else ds

/-- Time string built by the `pm`/`am` branches of the fallback (lines
246-255): the captured hour is converted (`hour += 12` unless 12 for pm,
`12 -> 0` for am) and rendered as `HH:00`. -/
def fmtMeridHour (isPm : Bool) (h : Nat) : List Char :=
  let h2 := if isPm then (if h ≠ 12 then h + 12 else h)
            else (if h = 12 then 0 else h)
  fmt02 h2 ++ [':', '0', '0']

/-- Time extraction of `_simple_entity_extraction` (lines 225-267): the four
time patterns tried in order, first match wins. -/
def extractTime (msg : List Char) : Option (List Char) :=
  match searchPos (matchMeridAt 'p') false msg with
  | some ds => some (fmtMeridHour true (digitsVal ds))
  | none =>
    match searchPos (matchMeridAt 'a') false msg with
    | some ds => some (fmtMeridHour false (digitsVal ds))
    | none =>
      match searchPos matchFullTimeAt false msg with
      | some (hs, ms, mer) =>
        let h := digitsVal hs
        let m := digitsVal ms
        let h2 :=
          match mer with
          | some (p :: _) =>
            if p.toLower = 'p' ∧ h ≠ 12 then h + 12
            else if p.toLower = 'a' ∧ h = 12 then 0
            else h
          | _ => h
        some (fmt02 h2 ++ ':' :: fmt02 m)
      | none =>
        match searchPos matchHM24At false msg with
        | some (hs, ms) => some (hs ++ ':' :: ms)
        | none => none

/-- Title keyword list of `_simple_entity_extraction` (line 270), in order. -/
def titleKeywords : List (List Char) :=
  [['m','e','e','t','i','n','g'], ['c','a','l','l'],
   ['a','p','p','o','i','n','t','m','e','n','t'],
   ['s','e','s','s','i','o','n'], ['c','o','n','f','e','r','e','n','c','e'],
   ['i','n','t','e','r','v','i','e','w']]

/-- Python `str.capitalize()`: first character uppercased, rest lowercased. -/
def pyCapitalize : List Char → List Char
  | [] => []
  | c :: t => c.toUpper :: t.map Char.toLower

/-- Title scan of `_simple_entity_extraction` (lines 270-274): the first
keyword contained in the lowercased message, capitalized. -/
def findTitle (msgLower : List Char) : List (List Char) → Option (List Char)
  | [] => none
  | kw :: rest =>
    if containsSub kw msgLower then some (pyCapitalize kw)
    else findTitle msgLower rest

/-- `CalendarAgent._simple_entity_extraction` (lines 210-280): the regex
fallback entity bag.  `title` is always populated — a matched keyword or the
generic `'Appointment'` label. -/
def simple_entity_extraction (msg : String) : Entities :=
  let l := msg.toList
  { date := (extractDate l).map String.mk
    time := (extractTime l).map String.mk
    title := some (String.mk ((findTitle (pyLower l) titleKeywords).getD
      (['A','p','p','o','i','n','t','m','e','n','t'])))
    duration := none
    description := none }

/-! ## Availability-engine lemmas -/

theorem emitAfter_mem (d endB : Nat) (cur : Nat) : ∀ s ∈ emitAfter d endB cur, cur ≤ s := by
  induction cur using emitAfter.induct d endB with
  | case1 cur h ih =>
    intro s hs
    rw [emitAfter] at hs
    simp only [dif_pos h, List.mem_cons] at hs
    rcases hs with rfl | hs
    · exact le_refl s
    · exact le_trans (Nat.le_add_right cur d) (ih s hs)
  | case2 cur h =>
    intro s hs
    rw [emitAfter] at hs
    simp [dif_neg h] at hs

theorem emitBefore_fst_mem (d buf bs : Nat) (cur : Nat) :
    ∀ s ∈ (emitBefore d buf bs cur).1, cur ≤ s ∧ s + d + buf ≤ bs := by
  induction cur using emitBefore.induct d buf bs with
  | case1 cur h ih =>
    intro s hs
    rw [emitBefore] at hs
    simp only [dif_pos h, List.mem_cons] at hs
    rcases hs with rfl | hs
    · exact ⟨le_refl s, h.2⟩
    · exact ⟨le_trans (Nat.le_add_right cur d) (ih s hs).1, (ih s hs).2⟩
  | case2 cur h =>
    intro s hs
    rw [emitBefore] at hs
    simp [dif_neg h] at hs

theorem emitBefore_snd_le (d buf bs : Nat) (cur : Nat) :
    cur ≤ (emitBefore d buf bs cur).2 := by
  induction cur using emitBefore.induct d buf bs with
  | case1 cur h ih =>
    rw [emitBefore]
    simp only [dif_pos h]
    exact le_trans (Nat.le_add_right cur d) ih
  | case2 cur h =>
    rw [emitBefore]
    simp [dif_neg h]

theorem slotWalk_mem_lower (d buf endB : Nat) :
    ∀ (l : List (Nat × Nat)) (cur : Nat), ∀ s ∈ slotWalk d buf endB cur l, cur ≤ s := by
  intro l
  induction l with
  | nil =>
    intro cur s hs
    rw [slotWalk] at hs
    exact emitAfter_mem d endB cur s hs
  | cons hd tl ih =>
    obtain ⟨bs, be⟩ := hd
    intro cur s hs
    rw [slotWalk] at hs
    by_cases hg : cur + d + buf ≤ bs
    · rw [if_pos hg] at hs
      simp only [List.mem_append] at hs
      rcases hs with hs | hs
      · exact (emitBefore_fst_mem d buf bs cur s hs).1
      · have h1 := ih _ s hs
        have h2 := emitBefore_snd_le d buf bs cur
        exact le_trans h2 (le_trans (Nat.le_max_left _ _) h1)
    · rw [if_neg hg] at hs
      have h1 := ih _ s hs
      exact le_trans (Nat.le_max_left _ _) h1

theorem slotWalk_no_overlap (d buf endB : Nat) :
    ∀ (l : List (Nat × Nat)) (cur : Nat),
      l.Pairwise (fun a b => a.1 ≤ b.1) →
      ∀ s ∈ slotWalk d buf endB cur l, ∀ p ∈ l, s + d ≤ p.1 ∨ p.2 + buf ≤ s := by
  intro l
  induction l with
  | nil =>
    intro cur _ s _ p hp
    simp at hp
  | cons hd tl ih =>
    obtain ⟨bs, be⟩ := hd
    intro cur hpw s hs p hp
    rw [List.pairwise_cons] at hpw
    obtain ⟨hhead, htl⟩ := hpw
    rw [slotWalk] at hs
    rcases List.mem_cons.mp hp with rfl | hp
    · by_cases hg : cur + d + buf ≤ bs
      · rw [if_pos hg] at hs
        simp only [List.mem_append] at hs
        rcases hs with hs | hs
        · left
          have h2 := (emitBefore_fst_mem d buf bs cur s hs).2
          omega
        · right
          have h1 := slotWalk_mem_lower d buf endB tl _ s hs
          exact le_trans (Nat.le_max_right _ _) h1
      · rw [if_neg hg] at hs
        right
        have h1 := slotWalk_mem_lower d buf endB tl _ s hs
        exact le_trans (Nat.le_max_right _ _) h1
    · by_cases hg : cur + d + buf ≤ bs
      · rw [if_pos hg] at hs
        simp only [List.mem_append] at hs
        rcases hs with hs | hs
        · left
          have h2 := (emitBefore_fst_mem d buf bs cur s hs).2
          have h3 := hhead p hp
          omega
        · exact ih _ htl s hs p hp
      · rw [if_neg hg] at hs
        exact ih _ htl s hs p hp

/-- Cursor values reachable in the walk: a base (the business-window start, or
some busy-interval end plus the buffer) plus a whole number of durations. -/
def alignedCur (startB d buf : Nat) (L : List (Nat × Nat)) (x : Nat) : Prop :=
  ∃ b k, (b = startB ∨ ∃ p ∈ L, b = p.2 + buf) ∧ x = b + k * d

theorem alignedCur_add (startB d buf : Nat) (L : List (Nat × Nat)) (x : Nat)
    (h : alignedCur startB d buf L x) : alignedCur startB d buf L (x + d) := by
  obtain ⟨b, k, hb, rfl⟩ := h
  exact ⟨b, k + 1, hb, by ring⟩

theorem emitAfter_aligned (startB d buf endB : Nat) (L : List (Nat × Nat)) (cur : Nat)
    (hc : alignedCur startB d buf L cur) :
    ∀ s ∈ emitAfter d endB cur, alignedCur startB d buf L s := by
  induction cur using emitAfter.induct d endB with
  | case1 cur h ih =>
    intro s hs
    rw [emitAfter] at hs
    simp only [dif_pos h, List.mem_cons] at hs
    rcases hs with rfl | hs
    · exact hc
    · exact ih (alignedCur_add startB d buf L cur hc) s hs
  | case2 cur h =>
    intro s hs
    rw [emitAfter] at hs
    simp [dif_neg h] at hs

theorem emitBefore_aligned (startB d buf bs : Nat) (L : List (Nat × Nat)) (cur : Nat)
    (hc : alignedCur startB d buf L cur) :
    (∀ s ∈ (emitBefore d buf bs cur).1, alignedCur startB d buf L s) ∧
      alignedCur startB d buf L (emitBefore d buf bs cur).2 := by
  induction cur using emitBefore.induct d buf bs with
  | case1 cur h ih =>
    have ih2 := ih (alignedCur_add startB d buf L cur hc)
    constructor
    · intro s hs
      rw [emitBefore] at hs
      simp only [dif_pos h, List.mem_cons] at hs
      rcases hs with rfl | hs
      · exact hc
      · exact ih2.1 s hs
    · rw [emitBefore]
      simp only [dif_pos h]
      exact ih2.2
  | case2 cur h =>
    constructor
    · intro s hs
      rw [emitBefore] at hs
      simp [dif_neg h] at hs
    · rw [emitBefore]
      simp only [dif_neg h]
      exact hc

theorem slotWalk_aligned (startB d buf endB : Nat) (L : List (Nat × Nat)) :
    ∀ (l : List (Nat × Nat)) (cur : Nat), (∀ q ∈ l, q ∈ L) →
      alignedCur startB d buf L cur →
      ∀ s ∈ slotWalk d buf endB cur l, alignedCur startB d buf L s := by
  intro l
  induction l with
  | nil =>
    intro cur _ hc s hs
    rw [slotWalk] at hs
    exact emitAfter_aligned startB d buf endB L cur hc s hs
  | cons hd tl ih =>
    obtain ⟨bs, be⟩ := hd
    intro cur hsub hc s hs
    have hheadL : (bs, be) ∈ L := hsub (bs, be) (List.mem_cons_self _ _)
    have hsubtl : ∀ q ∈ tl, q ∈ L := fun q hq => hsub q (List.mem_cons_of_mem _ hq)
    have hbe : alignedCur startB d buf L (be + buf) :=
      ⟨be + buf, 0, Or.inr ⟨(bs, be), hheadL, rfl⟩, by ring⟩
    rw [slotWalk] at hs
    by_cases hg : cur + d + buf ≤ bs
    · rw [if_pos hg] at hs
      simp only [List.mem_append] at hs
      have hb := emitBefore_aligned startB d buf bs L cur hc
      rcases hs with hs | hs
      · exact hb.1 s hs
      · have hmax : alignedCur startB d buf L (max (emitBefore d buf bs cur).2 (be + buf)) := by
          rcases Nat.le_total (emitBefore d buf bs cur).2 (be + buf) with h | h
          · rw [Nat.max_eq_right h]; exact hbe
          · rw [Nat.max_eq_left h]; exact hb.2
        exact ih _ hsubtl hmax s hs
    · rw [if_neg hg] at hs
      have hmax : alignedCur startB d buf L (max cur (be + buf)) := by
        rcases Nat.le_total cur (be + buf) with h | h
        · rw [Nat.max_eq_right h]; exact hbe
        · rw [Nat.max_eq_left h]; exact hc
      exact ih _ hsubtl hmax s hs

instance : IsTotal (Nat × Nat) (fun a b => a.1 ≤ b.1) :=
  ⟨fun a b => Nat.le_total a.1 b.1⟩

instance : IsTrans (Nat × Nat) (fun a b => a.1 ≤ b.1) :=
  ⟨fun _ _ _ h1 h2 => le_trans h1 h2⟩

theorem sortBusy_pairwise (l : List (Nat × Nat)) :
    (sortBusy l).Pairwise (fun a b => a.1 ≤ b.1) := by
  have h : List.Sorted (fun a b : Nat × Nat => a.1 ≤ b.1)
      (List.insertionSort (fun a b => a.1 ≤ b.1) l) :=
    List.sorted_insertionSort _ l
  exact h

theorem sortBusy_mem (l : List (Nat × Nat)) (p : Nat × Nat) :
    p ∈ sortBusy l ↔ p ∈ l :=
  (List.perm_insertionSort (fun a b => a.1 ≤ b.1) l).mem_iff

theorem busyTimes_mem (evs : List Event) (p : Nat × Nat) :
    p ∈ busyTimes evs ↔
      ∃ ev ∈ evs, ev.status ≠ some "cancelled" ∧ p = (ev.start, ev.stop) := by
  induction evs with
  | nil => simp [busyTimes]
  | cons e rest ih =>
    rw [busyTimes]
    by_cases hst : e.status ≠ some "cancelled"
    · rw [if_pos hst]
      simp only [List.mem_cons, ih]
      constructor
      · rintro (rfl | ⟨ev, hev, h1, h2⟩)
        · exact ⟨e, Or.inl rfl, hst, rfl⟩
        · exact ⟨ev, Or.inr hev, h1, h2⟩
      · rintro ⟨ev, rfl | hev, h1, h2⟩
        · exact Or.inl h2
        · exact Or.inr ⟨ev, hev, h1, h2⟩
    · rw [if_neg hst]
      push_neg at hst
      simp only [List.mem_cons, ih]
      constructor
      · rintro ⟨ev, hev, h1, h2⟩
        exact ⟨ev, Or.inr hev, h1, h2⟩
      · rintro ⟨ev, rfl | hev, h1, h2⟩
        · exact absurd hst h1
        · exact ⟨ev, hev, h1, h2⟩

theorem mem_get_available_slots (cfg : Config) (weekday : Nat) (events : List Event)
    (dur s : Nat) (hs : s ∈ get_available_slots cfg weekday events dur) :
    s ∈ slotWalk dur cfg.bookingBufferMinutes (cfg.businessEndHour * 60)
      (cfg.businessStartHour * 60) (sortBusy (busyTimes events)) := by
  simp only [get_available_slots] at hs
  split at hs
  · exact List.take_subset _ _ hs
  · simp at hs

/-- Concrete evaluation of scenario A: business hours 9-17, buffer 15,
duration 60, one busy interval 10:00-11:00 (= minutes 600-660). -/
theorem scenarioA_slots_eval :
    get_available_slots defaultConfig 0 [⟨some "confirmed", 600, 660⟩] 60 =
      [675, 735, 795, 855, 915] := by
  simp [get_available_slots, defaultConfig, sortBusy, busyTimes,
    List.insertionSort, slotWalk, emitBefore, emitAfter]

/-- C1: on a business day with business hours 09:00-17:00, buffer 15 minutes,
slot duration 60 minutes and exactly one busy interval 10:00-11:00,
`get_available_slots` returns exactly the five slots starting 11:15 (675),
12:15 (735), 13:15 (795), 14:15 (855), 15:15 (915), in that order. -/
theorem free_slots_scenarioA :
    get_available_slots defaultConfig 0 [⟨some "confirmed", 600, 660⟩] 60 =
      [675, 735, 795, 855, 915] :=
  scenarioA_slots_eval

/-- C2 counterexample: the slot starting 11:15 (minute 675) is returned in
scenario A, yet 675 is not `businessStart + k * duration` (= 540 + 60k) for
any k — the cursor re-anchors at `busy_end + buffer`, breaking the claimed
alignment. -/
theorem slot_alignment_counterexample :
    675 ∈ get_available_slots defaultConfig 0 [⟨some "confirmed", 600, 660⟩] 60 ∧
      ∀ k : Nat, (675 : Nat) ≠ defaultConfig.businessStartHour * 60 + k * 60 := by
  constructor
  · rw [scenarioA_slots_eval]
    decide
  · intro k
    simp only [defaultConfig]
    omega

/-- C2 (amended): every returned slot's start is `base + k * duration` for a
non-negative integer k, where `base` is either the business-window start or
`busyEnd + buffer` for some non-cancelled busy interval of the day — the
alignment re-anchors after each busy interval rather than staying on the
`businessStart` grid. -/
theorem slot_alignment_amended (cfg : Config) (weekday : Nat) (events : List Event)
    (dur : Nat) (_hd : 0 < dur) (s : Nat)
    (hs : s ∈ get_available_slots cfg weekday events dur) :
    (∃ k, s = cfg.businessStartHour * 60 + k * dur) ∨
      ∃ ev ∈ events, ev.status ≠ some "cancelled" ∧
        ∃ k, s = ev.stop + cfg.bookingBufferMinutes + k * dur := by
  have hwalk := mem_get_available_slots cfg weekday events dur s hs
  have hstart : alignedCur (cfg.businessStartHour * 60) dur cfg.bookingBufferMinutes
      (sortBusy (busyTimes events)) (cfg.businessStartHour * 60) :=
    ⟨cfg.businessStartHour * 60, 0, Or.inl rfl, by ring⟩
  have hal := slotWalk_aligned (cfg.businessStartHour * 60) dur cfg.bookingBufferMinutes
    (cfg.businessEndHour * 60) (sortBusy (busyTimes events)) (sortBusy (busyTimes events))
    (cfg.businessStartHour * 60) (fun q hq => hq) hstart s hwalk
  obtain ⟨b, k, hb, rfl⟩ := hal
  rcases hb with rfl | ⟨p, hpL, rfl⟩
  · exact Or.inl ⟨k, rfl⟩
  · right
    have hp' : p ∈ busyTimes events := (sortBusy_mem _ _).mp hpL
    obtain ⟨ev, hev, h1, h2⟩ := (busyTimes_mem events p).mp hp'
    refine ⟨ev, hev, h1, k, ?_⟩
    rw [h2]

/-- Witness for the amended C2 theorem at the scenario-A data and slot 675. -/
theorem slot_alignment_amended_witness :
    (∃ k, 675 = defaultConfig.businessStartHour * 60 + k * 60) ∨
      ∃ ev ∈ [(⟨some "confirmed", 600, 660⟩ : Event)],
        ev.status ≠ some "cancelled" ∧
          ∃ k, 675 = ev.stop + defaultConfig.bookingBufferMinutes + k * 60 :=
  slot_alignment_amended defaultConfig 0 [⟨some "confirmed", 600, 660⟩] 60
    (by decide) 675 (by rw [scenarioA_slots_eval]; decide)

/-- C3: for any business-day date and any finite list of busy intervals
returned by the store (arbitrary order, possibly overlapping — the engine
sorts by start before the walk), no returned slot `[s, s + duration)`
intersects any non-cancelled busy interval extended by the buffer on its end
side. -/
theorem free_slots_no_overlap (cfg : Config) (weekday : Nat) (events : List Event)
    (dur : Nat) (_hd : 0 < dur) (s : Nat)
    (hs : s ∈ get_available_slots cfg weekday events dur)
    (ev : Event) (hev : ev ∈ events) (hst : ev.status ≠ some "cancelled") :
    ¬ (ev.start < s + dur ∧ s < ev.stop + cfg.bookingBufferMinutes) := by
  have hwalk := mem_get_available_slots cfg weekday events dur s hs
  have hp : (ev.start, ev.stop) ∈ sortBusy (busyTimes events) := by
    rw [sortBusy_mem]
    exact (busyTimes_mem events _).mpr ⟨ev, hev, hst, rfl⟩
  have hdisj : s + dur ≤ ev.start ∨ ev.stop + cfg.bookingBufferMinutes ≤ s :=
    slotWalk_no_overlap dur cfg.bookingBufferMinutes (cfg.businessEndHour * 60)
      (sortBusy (busyTimes events)) (cfg.businessStartHour * 60)
      (sortBusy_pairwise _) s hwalk (ev.start, ev.stop) hp
  omega

/-- Witness for C3 at the scenario-A data, slot 675 against the busy interval
600-660. -/
theorem free_slots_no_overlap_witness :
    ¬ ((600 : Nat) < 675 + 60 ∧ (675 : Nat) < 660 + defaultConfig.bookingBufferMinutes) :=
  free_slots_no_overlap defaultConfig 0 [⟨some "confirmed", 600, 660⟩] 60
    (by decide) 675 (by rw [scenarioA_slots_eval]; decide)
    ⟨some "confirmed", 600, 660⟩ (by decide) (by decide)

/-! ## Availability check and dispatcher error handling -/

theorem availLoop_false_iff (evs : List Event) :
    availLoop evs = false ↔ ∃ ev ∈ evs, ev.status ≠ some "cancelled" := by
  induction evs with
  | nil => simp [availLoop]
  | cons e rest ih =>
    rw [availLoop]
    by_cases h : e.status ≠ some "cancelled"
    · rw [if_pos h]
      constructor
      · intro _
        exact ⟨e, List.mem_cons_self _ _, h⟩
      · intro _
        rfl
    · rw [if_neg h]
      push_neg at h
      rw [ih]
      constructor
      · rintro ⟨ev, hev, h1⟩
        exact ⟨ev, List.mem_cons_of_mem _ hev, h1⟩
      · rintro ⟨ev, hev, h1⟩
        rcases List.mem_cons.mp hev with rfl | hev2
        · exact absurd h h1
        · exact ⟨ev, hev2, h1⟩

/-- C4: for a query window `[s, e)`, when every event the store returns for
that window overlaps the window (the store's window-query contract),
`check_availability` returns `false` iff at least one returned non-cancelled
event overlaps `[s, e)`; in particular it returns `true` on zero events.
The code itself performs no overlap test — it rejects on any non-cancelled
returned event — so the biconditional rests on the store returning only
events overlapping the queried window. -/
theorem check_availability_symmetry (s e : Nat) (evs : List Event)
    (hov : ∀ ev ∈ evs, ev.start < e ∧ s < ev.stop) :
    (check_availability (Except.ok evs) = false ↔
      ∃ ev ∈ evs, ev.status ≠ some "cancelled" ∧ ev.start < e ∧ s < ev.stop) ∧
      check_availability (Except.ok ([] : List Event)) = true := by
  constructor
  · rw [show check_availability (Except.ok evs) = availLoop evs from rfl,
      availLoop_false_iff]
    constructor
    · rintro ⟨ev, hev, h1⟩
      exact ⟨ev, hev, h1, hov ev hev⟩
    · rintro ⟨ev, hev, h1, _⟩
      exact ⟨ev, hev, h1⟩
  · rfl

/-- Witness for C4 at scenario B's window 10:30-11:30 (630-690) and the busy
event 10:00-11:00. -/
theorem check_availability_symmetry_witness :
    ((check_availability (Except.ok [(⟨some "confirmed", 600, 660⟩ : Event)]) = false ↔
      ∃ ev ∈ [(⟨some "confirmed", 600, 660⟩ : Event)],
        ev.status ≠ some "cancelled" ∧ ev.start < 690 ∧ 630 < ev.stop) ∧
      check_availability (Except.ok ([] : List Event)) = true) :=
  check_availability_symmetry 630 690 [⟨some "confirmed", 600, 660⟩] (by decide)

/-- C10: when the store's `listEvents` raises, `check_availability` returns
`false` instead of propagating, and a booking attempt during such a read
failure ends in the not-available outcome with only the list call performed —
no create call is attempted. -/
theorem availability_error_fallback (store : Store) (title : String) (startTime : Nat)
    (durOpt : Option Nat) (descr : String)
    (herr : ∀ a b, store.listEvents a b = Except.error ()) :
    (∀ a b, check_availability (store.listEvents a b) = false) ∧
      tools_book_appointment store title startTime durOpt descr =
        (BookingReply.slotNotAvailable,
          [StoreCall.listEvents startTime (startTime + durOpt.getD 60)]) := by
  have hca : ∀ a b, check_availability (store.listEvents a b) = false := by
    intro a b
    rw [herr a b]
    rfl
  refine ⟨hca, ?_⟩
  simp only [tools_book_appointment, service_check_availability]
  rw [hca startTime (startTime + durOpt.getD 60)]
  simp

/-- Store whose every call raises. -/
def errStore : Store :=
  { listEvents := fun _ _ => Except.error ()
    createEvent := fun _ _ _ => Except.error () }

/-- Witness for C10 with an always-raising store. -/
theorem availability_error_fallback_witness :
    (∀ a b, check_availability (errStore.listEvents a b) = false) ∧
      tools_book_appointment errStore "Meeting" 600 (some 60) "" =
        (BookingReply.slotNotAvailable, [StoreCall.listEvents 600 660]) :=
  availability_error_fallback errStore "Meeting" 600 (some 60) "" (fun _ _ => rfl)

/-- C9: when the entity bag's date or time field is absent, both the booking
and the availability-check dispatch short-circuit to the clarification
outcome asking for both a date and a time, with no calendar-store call of any
kind. -/
theorem missing_fields_short_circuit (parseDate : Option String → Option Nat)
    (store : Store) (ents : Entities)
    (h : ents.date = none ∨ ents.time = none) :
    handle_booking parseDate store ents = (BookingReply.clarifyNeedDateAndTime, []) ∧
      handle_availability_check parseDate store ents =
        (AvailReply.clarifyNeedDateAndTime, []) := by
  have hf : (pyFalsyStr ents.date || pyFalsyStr ents.time) = true := by
    rcases h with h | h <;> rw [h] <;> simp [pyFalsyStr]
  constructor
  · simp only [handle_booking, hf, if_true]
  · simp only [handle_availability_check, hf, if_true]

/-- Witness for C9 with a bag missing its date. -/
theorem missing_fields_short_circuit_witness :
    handle_booking (fun _ => none) errStore
        ⟨some "Meeting", none, some "14:00", none, none⟩ =
        (BookingReply.clarifyNeedDateAndTime, []) ∧
      handle_availability_check (fun _ => none) errStore
        ⟨some "Meeting", none, some "14:00", none, none⟩ =
        (AvailReply.clarifyNeedDateAndTime, []) :=
  missing_fields_short_circuit (fun _ => none) errStore
    ⟨some "Meeting", none, some "14:00", none, none⟩ (Or.inl rfl)

/-! ## Next-available-slot search -/

theorem findNextLoop_none (f : Nat → List Nat) :
    ∀ (n start : Nat), (∀ j, j < n → f (start + j) = []) →
      findNextLoop f start n = none := by
  intro n
  induction n with
  | zero => intro start _; rfl
  | succ m ih =>
    intro start h
    have h0 : f start = [] := by simpa using h 0 (Nat.succ_pos m)
    rw [findNextLoop, h0]
    exact ih (start + 1) (fun j hj => by
      have h2 := h (j + 1) (by omega)
      rwa [show start + (j + 1) = start + 1 + j by omega] at h2)

theorem findNextLoop_some (f : Nat → List Nat) :
    ∀ (n start j s : Nat) (rest : List Nat), j < n →
      (∀ i, i < j → f (start + i) = []) → f (start + j) = s :: rest →
      findNextLoop f start n = some (start + j, s) := by
  intro n
  induction n with
  | zero =>
    intro start j s rest hj _ _
    exact absurd hj (Nat.not_lt_zero j)
  | succ m ih =>
    intro start j s rest hj hprev hj2
    cases j with
    | zero =>
      have h0 : f start = s :: rest := by simpa using hj2
      rw [findNextLoop, h0]
      simp
    | succ j2 =>
      have h0 : f start = [] := by simpa using hprev 0 (Nat.succ_pos j2)
      rw [findNextLoop, h0]
      have hr := ih (start + 1) j2 s rest (by omega)
        (fun i hi => by
          have h2 := hprev (i + 1) (by omega)
          rwa [show start + (i + 1) = start + 1 + i by omega] at h2)
        (by rwa [show start + (j2 + 1) = start + 1 + j2 by omega] at hj2)
      rwa [show start + 1 + j2 = start + (j2 + 1) by omega] at hr

/-- Full-window busy event making a business day have no free slots. -/
def fullDayBusy : List Event := [⟨some "confirmed", 540, 1020⟩]

/-- Schedule whose days 0-6 are fully busy and whose day 7 is free. -/
def weekBusySchedule (day : Nat) : List Event :=
  if day < 7 then fullDayBusy else []

/-- C6 counterexample: with the configured horizon
`AVAILABILITY_SEARCH_DAYS = 30` and a schedule whose first free day is day 7,
`find_next_available_slot` returns the not-found outcome — the code scans the
hardcoded `range(7)`, not the configured horizon, so a free day within the
configured horizon is missed. -/
theorem next_available_horizon_counterexample :
    find_next_available_slot defaultConfig (fun _ => 0) weekBusySchedule 0 60 = none ∧
      get_available_slots defaultConfig 0 (weekBusySchedule 7) 60 ≠ [] ∧
      7 < AVAILABILITY_SEARCH_DAYS := by
  refine ⟨?_, ?_, by decide⟩
  · simp [find_next_available_slot, findNextLoop, weekBusySchedule, fullDayBusy,
      get_available_slots, defaultConfig, sortBusy, busyTimes, List.insertionSort,
      slotWalk, emitBefore, emitAfter]
  · simp [weekBusySchedule, get_available_slots, defaultConfig, sortBusy, busyTimes,
      List.insertionSort, slotWalk, emitBefore, emitAfter]

/-- C6 (amended): `find_next_available_slot` scans exactly 7 consecutive days
from the starting date — a hardcoded count, not the configured
`AVAILABILITY_SEARCH_DAYS` horizon — returning the first slot of the first
day whose `get_available_slots` result is non-empty, and the not-found
outcome only when those 7 days are exhausted. -/
theorem next_available_amended (cfg : Config) (weekdayOf : Nat → Nat)
    (eventsOn : Nat → List Event) (startDay dur : Nat) :
    ((∀ j, j < 7 →
        get_available_slots cfg (weekdayOf (startDay + j)) (eventsOn (startDay + j)) dur = []) →
      find_next_available_slot cfg weekdayOf eventsOn startDay dur = none) ∧
      ∀ (j s : Nat) (rest : List Nat), j < 7 →
        (∀ i, i < j →
          get_available_slots cfg (weekdayOf (startDay + i)) (eventsOn (startDay + i)) dur = []) →
        get_available_slots cfg (weekdayOf (startDay + j)) (eventsOn (startDay + j)) dur =
          s :: rest →
        find_next_available_slot cfg weekdayOf eventsOn startDay dur =
          some (startDay + j, s) := by
  constructor
  · intro h
    exact findNextLoop_none _ 7 startDay h
  · intro j s rest hj hprev hjs
    exact findNextLoop_some _ 7 startDay j s rest hj hprev hjs

/-- Witness for the amended C6 theorem on a store with no events: day 0 is
free and its first slot 9:00 (540) is returned. -/
theorem next_available_amended_witness :
    find_next_available_slot defaultConfig (fun _ => 0) (fun _ => []) 0 60 =
      some (0, 540) :=
  (next_available_amended defaultConfig (fun _ => 0) (fun _ => []) 0 60).2 0 540
    [600, 660, 720, 780, 840, 900, 960] (by omega)
    (fun i hi => absurd hi (Nat.not_lt_zero i))
    (by simp [get_available_slots, defaultConfig, sortBusy, busyTimes,
      List.insertionSort, slotWalk, emitBefore, emitAfter])

/-! ## Time-fragment normalization -/

theorem mkTime_some (h m : Int) (a b : Nat) (hh : mkTime h m = some (a, b)) :
    a ≤ 23 ∧ b ≤ 59 := by
  unfold mkTime at hh
  split at hh
  · rename_i hcond
    simp only [Option.some.injEq, Prod.mk.injEq] at hh
    obtain ⟨rfl, rfl⟩ := hh
    omega
  · exact Option.noConfusion hh

theorem parse_time_in_range (t : Option String) (h m : Nat)
    (hp : parse_time_component t = some (h, m)) : h ≤ 23 ∧ m ≤ 59 := by
  cases t with
  | none => exact Option.noConfusion hp
  | some s0 =>
    rw [parse_time_component] at hp
    split at hp
    · exact Option.noConfusion hp
    · dsimp only at hp
      split at hp
      · split at hp
        · split at hp
          · exact mkTime_some _ _ _ _ hp
          · exact Option.noConfusion hp
        · split at hp
          · exact mkTime_some _ _ _ _ hp
          · exact Option.noConfusion hp
      · split at hp
        · split at hp
          · exact mkTime_some _ _ _ _ hp
          · exact Option.noConfusion hp
        · split at hp
          · exact mkTime_some _ _ _ _ hp
          · exact Option.noConfusion hp

theorem parse_datetime_none_iff (parseDate : Option String → Option Nat)
    (ds ts : Option String) :
    parse_datetime parseDate ds ts = none ↔
      parseDate ds = none ∨ parse_time_component ts = none := by
  unfold parse_datetime
  cases hpd : parseDate ds with
  | none => simp
  | some day =>
    cases hpt : parse_time_component ts with
    | none => simp
    | some p =>
      obtain ⟨h, m⟩ := p
      simp

/-- C7: `_parse_time_component` maps `'12 PM'` to 12:00 and `'12 AM'` to
00:00, takes colon-delimited 24-hour forms literally, treats a bare integer
as that hour with zero minutes, returns `None` rather than a clamped value
for out-of-range hours or minutes (hour 25, minute 75, a pm hour above 12 —
and in general every successful parse is in range), fails immediately on a
null or empty fragment, and a combined datetime requires both the date and
the time fragment to normalize. -/
theorem parse_time_component_spec :
    parse_time_component (some "12 PM") = some (12, 0) ∧
    parse_time_component (some "12 AM") = some (0, 0) ∧
    parse_time_component (some "14:30") = some (14, 30) ∧
    parse_time_component (some "7") = some (7, 0) ∧
    parse_time_component (some "25:00") = none ∧
    parse_time_component (some "10:75") = none ∧
    parse_time_component (some "13 pm") = none ∧
    parse_time_component (some "") = none ∧
    parse_time_component none = none ∧
    (∀ (t : Option String) (h m : Nat),
      parse_time_component t = some (h, m) → h ≤ 23 ∧ m ≤ 59) ∧
    ∀ (parseDate : Option String → Option Nat) (ds ts : Option String),
      parse_datetime parseDate ds ts = none ↔
        parseDate ds = none ∨ parse_time_component ts = none :=
  ⟨rfl, rfl, rfl, rfl, rfl, rfl, rfl, rfl, rfl,
    parse_time_in_range, parse_datetime_none_iff⟩

/-- Witness for C7's in-range clause at the parse of `'14:30'`. -/
theorem parse_time_component_spec_witness : 14 ≤ 23 ∧ 30 ≤ 59 :=
  parse_time_component_spec.2.2.2.2.2.2.2.2.2.1 (some "14:30") 14 30 rfl

/-! ## Fallback entity extraction -/

theorem findTitle_none (msgLower : List Char) :
    ∀ kws, findTitle msgLower kws = none →
      ∀ kw ∈ kws, containsSub kw msgLower = false := by
  intro kws
  induction kws with
  | nil => intro _ kw hkw; simp at hkw
  | cons k rest ih =>
    intro hft kw hkw
    rw [findTitle] at hft
    split at hft
    · exact Option.noConfusion hft
    · rename_i hc
      rcases List.mem_cons.mp hkw with rfl | hkw2
      · simpa using hc
      · exact ih hft kw hkw2

theorem findTitle_some (msgLower : List Char) :
    ∀ kws t, findTitle msgLower kws = some t →
      ∃ kw ∈ kws, containsSub kw msgLower = true ∧ t = pyCapitalize kw := by
  intro kws
  induction kws with
  | nil => intro t ht; exact Option.noConfusion ht
  | cons k rest ih =>
    intro t ht
    rw [findTitle] at ht
    split at ht
    · rename_i hc
      exact ⟨k, List.mem_cons_self _ _, hc, (Option.some.injEq _ _).mp ht.symm⟩
    · obtain ⟨kw, hkw, hc, he⟩ := ih t ht
      exact ⟨kw, List.mem_cons_of_mem _ hkw, hc, he⟩

/-- C8: for every input string the fallback extraction terminates (it is a
total Lean function) and returns a bag whose title is non-null: the
capitalized first keyword of the fixed list occurring case-insensitively in
the message, or the generic label `'Appointment'` when none occurs. -/
theorem fallback_title_total (msg : String) :
    ∃ t, (simple_entity_extraction msg).title = some t ∧
      ((∃ kw ∈ titleKeywords, containsSub kw (pyLower msg.toList) = true ∧
          t = String.mk (pyCapitalize kw)) ∨
        ((∀ kw ∈ titleKeywords, containsSub kw (pyLower msg.toList) = false) ∧
          t = "Appointment")) := by
  cases hft : findTitle (pyLower msg.toList) titleKeywords with
  | none =>
    refine ⟨"Appointment", ?_, Or.inr ⟨findTitle_none _ titleKeywords hft, rfl⟩⟩
    simp only [simple_entity_extraction, hft]
    rfl
  | some t0 =>
    obtain ⟨kw, hkw, hc, rfl⟩ := findTitle_some _ titleKeywords t0 hft
    refine ⟨String.mk (pyCapitalize kw), ?_, Or.inl ⟨kw, hkw, hc, rfl⟩⟩
    simp only [simple_entity_extraction, hft, Option.getD_some]

/-- Witness for C8 at the message `'book a meeting'`. -/
theorem fallback_title_total_witness :
    ∃ t, (simple_entity_extraction "book a meeting").title = some t ∧
      ((∃ kw ∈ titleKeywords,
          containsSub kw (pyLower ("book a meeting").toList) = true ∧
          t = String.mk (pyCapitalize kw)) ∨
        ((∀ kw ∈ titleKeywords,
            containsSub kw (pyLower ("book a meeting").toList) = false) ∧
          t = "Appointment")) :=
  fallback_title_total "book a meeting"

/-- C5 (code bug): for the message `'2:30 pm'` the fallback extraction yields
the time `'42:00'`, not the claimed `'14:30'` — the first time pattern
matches the minute token `'30 pm'` and converts 30 to pm-hour 42. -/
theorem fallback_time_extraction_bug :
    (simple_entity_extraction "2:30 pm").time = some "42:00" ∧
      (simple_entity_extraction "2:30 pm").time ≠ some "14:30" :=
  ⟨rfl, by decide⟩
